import Mathlib

/-!
Shallow embedding of `decodense/orbitals.py` (functions `loc_orbs`,
`assign_rdm1s`, `_population`) over exact rationals.

Modelling conventions:
* numpy arrays of reals are modelled with `ℚ`; dense matrices are modelled as
  total functions `Nat → Nat → ℚ` (entries outside the logical shape are
  irrelevant to well-formed computations), while per-orbital weight vectors,
  centre pairs and index groups are concrete lists, as in the source.
* pyscf routines (`lo.Boys`, `lo.PM`, `lo.ibo.ibo`, `lo.iao.iao`,
  `lo.vec_lowdin`, `lo.iao.reference_mol`) are external collaborators and are
  passed in as abstract function parameters (`LocKernels`, `Externals`).
* Python exceptions are modelled with `Except PyErr`; the constructors record
  which concrete Python exception the source would raise.
* the in-place column assignments `mo_coeff[i][:, spin_mo] = ...` are modelled
  functionally by `setCols`; the returned matrices carry the mutation.
-/

namespace Decodense

/-- Real matrices (numpy 2-d arrays) as total entry functions. -/
abbrev Mat2 : Type := Nat → Nat → ℚ

/-- The fields of the pyscf `gto.Mole` object that `orbitals.py` reads:
atom count, spin (`nalpha - nbeta`), the per-channel occupied orbital index
lists `mol.alpha` / `mol.beta` (attached to the object by the decodense
driver), the AO-label-to-atom map (`k[0]` of each entry of
`mol.ao_labels(fmt=None)`) and the AO basis size `nao_nr()`. -/
structure Mole where
  natm : Nat
  spin : Int
  alpha : List Nat
  beta : List Nat
  ao_labels : List Nat
  nao : Nat
deriving DecidableEq

/-- Python exceptions that the source can raise, plus the spec's
`InvalidOptionError`.  `keyError k` models `kwargs[k]` on a missing key,
`nameError v` models referencing the never-assigned closure variable `v`,
`unboundLocal v` models referencing the never-assigned local `v`,
`valueError` models `mp.Pool(processes=0)` (and `int()` of a non-digit).
`invalidOption` is modelled from the spec's error taxonomy
(`InvalidOptionError`); no statement of the source raises it — it is included
so that its absence can be stated. -/
inductive PyErr where
  | keyError (k : String)
  | nameError (v : String)
  | unboundLocal (v : String)
  | valueError
  | invalidOption
deriving DecidableEq

/-- Result of one pyscf localisation kernel call (`loc.kernel()`): the
localised occupied columns together with the optimiser's convergence flag
(`loc.converged`), which the source never inspects. -/
structure LocOut where
  converged : Bool
  mo : Mat2

/-- The three iterative localisation procedures, abstract: `lo.Boys(...)`,
`lo.PM(...)` (each with `conv_tol = 1e-10`) and `lo.ibo.ibo(...)` (with
`grad_tol = 1e-10` and an integer exponent). -/
structure LocKernels where
  fb : Mole → Mat2 → LocOut
  pm : Mole → Mat2 → LocOut
  ibo : Mole → Mat2 → Mat2 → Nat → Mat2

/-- Other external pyscf routines used by `orbitals.py`. -/
structure Externals where
  reference_mol : Mole → Mole
  iao : Mole → Mat2 → Mat2
  vec_lowdin : Mat2 → Mat2 → Mat2

/-- `m[:, idx]`: column selection by an index list. -/
def selCols (m : Mat2) (idx : List Nat) : Mat2 :=
  fun r t => m r (idx.getD t 0)

/-- `m[:, idx] = v`: functional model of the in-place column assignment;
column `idx[t]` of the result is column `t` of `v`, all other columns are
those of `m`.  (The occupied index lists are duplicate-free in decodense.) -/
def setCols (m : Mat2) (idx : List Nat) (v : Mat2) : Mat2 :=
  fun r c => if c ∈ idx then v r (idx.indexOf c) else m r c

/-- `'ibo' in variant`: substring test of the source's `elif`. -/
def hasIbo (v : String) : Bool :=
  decide ("ibo".toList <:+: v.toList)

/-- `variant[-1]` (the source only reaches it for nonempty `variant`). -/
def lastChar (v : String) : Char :=
  v.toList.getLastD ' '

/-- Whether the variant string selects one of the three localisation
procedures (the source's `if`/`elif` chain matches it). -/
def locHit (v : String) : Bool :=
  v == "fb" || v == "pm" || hasIbo v

/-- One iteration of the `for i, spin_mo in enumerate((mol.alpha, mol.beta))`
loop body of `loc_orbs` (lines 31-49): dispatch on the variant string and
write the localised orbitals into the occupied columns.  The returned `Bool`
records whether a localisation procedure actually executed (instrumentation
for the execute-once property).  `int(variant[-1])` on a non-digit raises
`ValueError` before `lo.ibo.ibo` is called. -/
def locVariant (ks : LocKernels) (ext : Externals) (mol : Mole) (s : Mat2)
    (variant : String) (m : Mat2) (spin_mo : List Nat) :
    Except PyErr (Mat2 × Bool) :=
  if variant = "fb" then
    .ok (setCols m spin_mo (ks.fb mol (selCols m spin_mo)).mo, true)
  else if variant = "pm" then
    .ok (setCols m spin_mo (ks.pm mol (selCols m spin_mo)).mo, true)
  else if hasIbo variant then
    if (lastChar variant).isDigit then
      .ok (setCols m spin_mo
            (ks.ibo mol (selCols m spin_mo)
              (ext.vec_lowdin (ext.iao mol (selCols m spin_mo)) s)
              ((lastChar variant).toNat - 48)), true)
    else .error .valueError
  else .ok (m, false)

/-- `loc_orbs` (lines 23-55).  The coefficient pair is passed as two
components `mo0`, `mo1`.  On the closed-shell/restricted path the alpha
result's occupied columns are copied into beta's occupied columns (at the
alpha index list, as in line 52, where `spin_mo = mol.alpha`) and the loop
`break`s.  The second component of the result is the instrumentation trace:
the list of spin channels on which a localisation procedure executed. -/
def loc_orbs (ks : LocKernels) (ext : Externals) (mol : Mole)
    (mo0 mo1 : Mat2) (s : Mat2) (ref variant : String) :
    Except PyErr ((Mat2 × Mat2) × List Nat) :=
  match locVariant ks ext mol s variant mo0 mol.alpha with
  | .error e => .error e
  | .ok (a, ra) =>
    if ref = "restricted" ∧ mol.spin = 0 then
      .ok ((a, setCols mo1 mol.alpha (selCols a mol.alpha)),
           if ra then [0] else [])
    else
      match locVariant ks ext mol s variant mo1 mol.beta with
      | .error e => .error e
      | .ok (b, rb) =>
        .ok ((a, b), (if ra then [0] else []) ++ (if rb then [1] else []))

/-- Modelled from the spec: `tools.make_rdm1` is imported from
`decodense/tools.py`, which is not under `src/`.  Spec §4.2 step 2: the
one-orbital density is "the outer product of the column with itself scaled by
occupation". -/
def make_rdm1 (orb : Nat → ℚ) (occ : ℚ) : Mat2 :=
  fun i j => occ * orb i * orb j

/-- `_population` (lines 171-184).  The contraction
`contract('ij,ji->i', rdm1, ovlp)` is `tools.contract` (numpy einsum, not
under `src/`); spec §4.2 step 3 gives its formula
`pop[k] = Σ_l rdm1[k,l] * ovlp[l,k]`.  The AO dimension equals
`len(ao_labels)`.  The loop `populations[k[0]] += pop[i]` is the fold. -/
def _population (natm : Nat) (ao_labels : List Nat) (ovlp rdm1 : Mat2) :
    List ℚ :=
  let pop := (List.range ao_labels.length).map
    (fun i => ∑ j ∈ Finset.range ao_labels.length, rdm1 i j * ovlp j i)
  (ao_labels.zip pop).foldl
    (fun acc p => acc.set p.1 (acc.getD p.1 0 + p.2))
    (List.replicate natm 0)

/-- `get_weights` (lines 88-97), with the closure variables (`mo`, `mocc`,
`natm`, `ao_labels`, `ovlp`) as explicit parameters: extract orbital
`orb_idx`, build its one-orbital density, compute its atomic populations. -/
def get_weights (natm : Nat) (ao_labels : List Nat) (ovlp mo : Mat2)
    (mocc : List ℚ) (orb_idx : Nat) : List ℚ :=
  _population natm ao_labels ovlp
    (make_rdm1 (fun r => mo r orb_idx) (mocc.getD orb_idx 0))

/-- `contract('ki,kl,lj->ij', iao, s, mo_coeff[i][:, spin_mo])` (line 111),
with both contracted indices ranging over the AO dimension `n`. -/
def contract_tri (n : Nat) (a s c : Mat2) : Mat2 :=
  fun i j => ∑ k ∈ Finset.range n, ∑ l ∈ Finset.range n, a k i * s k l * c l j

/-- The iao-projected occupied coefficients (lines 109-111). -/
def iaoMo (ext : Externals) (mol : Mole) (s C : Mat2) (spin_mo : List Nat) :
    Mat2 :=
  contract_tri mol.nao (ext.vec_lowdin (ext.iao mol (selCols C spin_mo)) s) s
    (selCols C spin_mo)

/-- `mp.Pool.map`'s default chunksize:
`chunksize, extra = divmod(len, n*4); if extra: chunksize += 1`. -/
def chunksize (len n : Nat) : Nat :=
  len / (n * 4) + (if len % (n * 4) = 0 then 0 else 1)

/-- Split a list into consecutive chunks of size `k` (the last may be
shorter), as `mp.Pool.map` partitions its input. -/
def chunk : Nat → List α → List (List α)
  | _, [] => []
  | 0, l => [l]
  | k + 1, x :: xs => (x :: xs.take k) :: chunk (k + 1) (xs.drop k)
termination_by _ l => l.length
decreasing_by
  simp only [List.length_drop, List.length_cons]
  omega

/-- The execution dispatch of lines 116-122: `mp.Pool` with
`processes = min(domain.size, lib.num_threads())` (raising `ValueError` when
that is zero) and an order-preserving chunked `pool.map`, or the sequential
`list(map(...))`. -/
def runPool (multiproc : Bool) (nt : Nat) (f : Nat → List ℚ)
    (domain : List Nat) : Except PyErr (List (List ℚ)) :=
  if multiproc then
    if min domain.length nt = 0 then .error .valueError
    else .ok ((chunk (chunksize domain.length (min domain.length nt))
                domain).map (List.map f)).flatten
  else .ok (domain.map f)

/-- One iteration of the spin loop of `assign_rdm1s` (lines 103-122): select
the population basis for the channel, then run the per-orbital kernel over
`domain = np.arange(spin_mo.size)`.  For a population scheme that is neither
`mulliken` nor `iao`, the local `mo` is never assigned, so the first call of
`get_weights` raises `NameError` (with `multiproc` the `Pool` is created
first, so an empty domain raises `ValueError` before that, and a sequential
empty map raises nothing). -/
def spinWeights (ext : Externals) (mol : Mole) (s C : Mat2) (occ : List ℚ)
    (spin_mo : List Nat) (pop : String) (natm : Nat) (labels : List Nat)
    (ovlp : Mat2) (multiproc : Bool) (nt : Nat) :
    Except PyErr (List (List ℚ)) :=
  let domain := List.range spin_mo.length
  let mocc := spin_mo.map (fun k => occ.getD k 0)
  if pop = "mulliken" then
    runPool multiproc nt
      (fun j => get_weights natm labels ovlp (selCols C spin_mo) mocc j) domain
  else if pop = "iao" then
    runPool multiproc nt
      (fun j => get_weights natm labels ovlp (iaoMo ext mol s C spin_mo) mocc j)
      domain
  else
    if multiproc then
      if min domain.length nt = 0 then .error .valueError
      else .error (.nameError "mo")
    else if domain.length = 0 then .ok [] else .error (.nameError "mo")

/-- `np.argsort(w)[::-1]` (line 149): indices sorted ascending by weight
value (a deterministic sort; numpy's tie order is likewise unspecified), then
reversed. -/
def argsortDesc (wj : List ℚ) : List Nat :=
  (List.insertionSort (fun a b => wj.getD a 0 ≤ wj.getD b 0)
    (List.range wj.length)).reverse

/-- Lines 150-156: the per-orbital centre assignment under the `bonds`
policy.  Strictly above the threshold: single centre `(argmax, argmax)`;
otherwise the two top indices of the descending argsort, sorted ascending
(`np.sort`). -/
def centre_of (thres : ℚ) (wj : List ℚ) : Nat × Nat :=
  let max_idx := argsortDesc wj
  let m0 := max_idx.getD 0 0
  if |wj.getD m0 0| > thres then (m0, m0)
  else (min m0 (max_idx.getD 1 0), max m0 (max_idx.getD 1 0))

/-- Lines 142-156 for one spin channel: centres start as the
`np.zeros([size, 2])` array, then `centres[i][j]` is assigned for
`j in domain` — where `domain` is the variable LEFT OVER from the weights
loop (its length is the last processed channel's size, not necessarily this
channel's). -/
def centresFor (domLen : Nat) (thres : ℚ) (w : List (List ℚ)) (size : Nat) :
    List (Nat × Nat) :=
  (List.range domLen).foldl
    (fun acc j => acc.set j (centre_of thres (w.getD j [])))
    (List.replicate size (0, 0))

/-- Lexicographic order on centre pairs (the row order of
`np.unique(..., axis=0)`). -/
def pairLe (a b : Nat × Nat) : Prop :=
  a.1 < b.1 ∨ (a.1 = b.1 ∧ a.2 ≤ b.2)

instance : DecidableRel pairLe := fun a b => by
  unfold pairLe
  infer_instance

/-- `np.unique(centres[i], axis=0)` (line 162): the distinct centre pairs in
lexicographically sorted order. -/
def uniqueCentres (cs : List (Nat × Nat)) : List (Nat × Nat) :=
  List.insertionSort pairLe cs.dedup

/-- `rep_idx` for one channel (line 163): for each unique pair, the
(ascending) list of orbital rows of `centres` equal to it
(`np.where((centres[i] == j).all(axis=1))[0]`). -/
def rep_idx_of (cs : List (Nat × Nat)) : List (List Nat) :=
  (uniqueCentres cs).map
    (fun u => (List.range cs.length).filter (fun j => decide (cs.getD j (0, 0) = u)))

/-- The two possible non-error returns of `assign_rdm1s`:
`(weights, None)` for the `atoms`/`eda` policies, `(rep_idx, centres_unique)`
for `bonds`. -/
inductive AssignRes where
  | weights (w0 w1 : List (List ℚ))
  | bonds (rep0 rep1 : List (List Nat)) (cu0 cu1 : List (Nat × Nat))
deriving DecidableEq

/-- Lines 140-168 after the weights are available: the bonds block (fetching
`kwargs['thres']` — `KeyError` when absent — and building centres with the
stale `domain` length), then the final `return`.  A partition policy that is
none of `atoms`/`eda`/`bonds` reaches `return rep_idx, centres_unique` with
`rep_idx` never assigned: `UnboundLocalError`. -/
def assignTail (part : String) (thOpt : Option ℚ) (w0 w1 : List (List ℚ))
    (alen blen domLen : Nat) (short : Bool) (trace : List Nat) :
    Except PyErr (AssignRes × List Nat) :=
  if part = "bonds" then
    match thOpt with
    | none => .error (.keyError "thres")
    | some t =>
      let c0 := centresFor domLen t w0 alen
      let c1 := if short then c0 else centresFor domLen t w1 blen
      .ok (.bonds (rep_idx_of c0) (rep_idx_of c1)
            (uniqueCentres c0) (uniqueCentres c1), trace)
  else if part = "atoms" ∨ part = "eda" then
    .ok (.weights w0 w1, trace)
  else .error (.unboundLocal "rep_idx")

/-- `assign_rdm1s` (lines 58-168).  The zero-initialisation of `weights`
(line 100) is always overwritten before being read and is omitted; the
verbose branch (lines 130-137) only prints and is omitted (`_verbose` is kept
as a parameter).  The second component of the result is the instrumentation
trace: the spin channels whose population computation executed (the
closed-shell short-circuit copies `weights[1] = weights[0]` and `break`s).
`domLen` passed to the bonds block is the length of the leftover `domain`
variable. -/
def assign_rdm1s (ext : Externals) (mol : Mole) (s : Mat2) (mo0 mo1 : Mat2)
    (occ0 occ1 : List ℚ) (ref pop part : String) (multiproc : Bool) (nt : Nat)
    (_verbose : Nat) (thOpt : Option ℚ) : Except PyErr (AssignRes × List Nat) :=
  let pmol := if pop = "iao" then ext.reference_mol mol else mol
  let natm := pmol.natm
  let labels := pmol.ao_labels
  let ovlp : Mat2 :=
    if pop = "mulliken" then s
    else fun i j => if i = j ∧ i < pmol.nao then 1 else 0
  match spinWeights ext mol s mo0 occ0 mol.alpha pop natm labels ovlp
      multiproc nt with
  | .error e => .error e
  | .ok w0 =>
    if ref = "restricted" ∧ mol.spin = 0 then
      assignTail part thOpt w0 w0 mol.alpha.length mol.beta.length
        mol.alpha.length true [0]
    else
      match spinWeights ext mol s mo1 occ1 mol.beta pop natm labels ovlp
          multiproc nt with
      | .error e => .error e
      | .ok w1 =>
        assignTail part thOpt w0 w1 mol.alpha.length mol.beta.length
          mol.beta.length false [0, 1]

instance {ε α : Type} [DecidableEq ε] [DecidableEq α] :
    DecidableEq (Except ε α) := fun x y =>
  match x, y with
  | .ok a, .ok b =>
    if h : a = b then .isTrue (by rw [h]) else .isFalse (by simp [h])
  | .error a, .error b =>
    if h : a = b then .isTrue (by rw [h]) else .isFalse (by simp [h])
  | .ok _, .error _ => .isFalse (by simp)
  | .error _, .ok _ => .isFalse (by simp)

/-- `c^T S c`: the overlap-normalisation quadratic form of one orbital
column, over the AO dimension `n`. -/
def quadForm (c : Nat → ℚ) (S : Mat2) (n : Nat) : ℚ :=
  ∑ i ∈ Finset.range n, c i * ∑ j ∈ Finset.range n, S i j * c j

/-! Concrete instances used by witnesses and counterexamples. -/

/-- Trivial stand-ins for the external pyscf routines. -/
def extI : Externals := ⟨fun m => m, fun _ m => m, fun m _ => m⟩

/-- Identity overlap matrix. -/
def matI : Mat2 := fun i j => if i = j then 1 else 0

/-- All-ones coefficient matrix. -/
def matOne : Mat2 := fun _ _ => 1

/-- Localisation kernels that all return the zero matrix, reporting the
convergence flag `b`. -/
def ksConst (b : Bool) : LocKernels :=
  ⟨fun _ _ => ⟨b, fun _ _ => 0⟩, fun _ _ => ⟨b, fun _ _ => 0⟩,
   fun _ _ _ _ => fun _ _ => 0⟩

/-- A one-atom doublet (one alpha electron, no beta electrons). -/
def molOpen : Mole := ⟨1, 1, [0], [], [0], 1⟩

/-- A two-atom doublet with two alpha and one beta occupied orbitals. -/
def molUneven : Mole := ⟨2, 1, [0, 1], [0], [0, 1], 2⟩

/-- A one-atom singlet. -/
def molSing : Mole := ⟨1, 0, [0], [0], [0], 1⟩

/-- Alpha coefficients for the `molUneven` example: column 0 is `(1, 0)`,
every other column is `(1, 1)`. -/
def moUneven : Mat2 := fun r c => if c = 0 then (if r = 0 then 1 else 0) else 1

/-! Helper lemmas. -/

lemma locVariant_frame {ks : LocKernels} {ext : Externals} {mol : Mole}
    {s : Mat2} {variant : String} {m : Mat2} {spin_mo : List Nat}
    {m' : Mat2} {ra : Bool}
    (h : locVariant ks ext mol s variant m spin_mo = .ok (m', ra)) :
    ∀ r c, c ∉ spin_mo → m' r c = m r c := by
  intro r c hc
  unfold locVariant at h
  split_ifs at h
  all_goals cases h <;> simp [setCols, hc]

lemma selCols_setCols_getD {m v : Mat2} {idx : List Nat} {r t : Nat}
    (ht : t < idx.length) :
    selCols (setCols m idx v) idx r t = v r (idx.indexOf (idx.getD t 0)) := by
  have hc : idx.getD t 0 ∈ idx := by
    rw [List.getD_eq_getElem idx 0 ht]
    exact List.getElem_mem ht
  show (if idx.getD t 0 ∈ idx then v r (idx.indexOf (idx.getD t 0))
        else m r (idx.getD t 0)) = v r (idx.indexOf (idx.getD t 0))
  rw [if_pos hc]

lemma indexOf_getD_self {idx : List Nat} {t : Nat} (ht : t < idx.length) :
    idx.getD (idx.indexOf (idx.getD t 0)) 0 = idx.getD t 0 := by
  have hc : idx.getD t 0 ∈ idx := by
    rw [List.getD_eq_getElem idx 0 ht]
    exact List.getElem_mem ht
  have hlt : idx.indexOf (idx.getD t 0) < idx.length :=
    List.indexOf_lt_length.mpr hc
  rw [List.getD_eq_getElem idx 0 hlt]
  exact List.getElem_indexOf hlt

/-! Claim theorems. -/

/-- C10: for a variant string that is not `fb`, not `pm` and does not contain
`ibo`, with an unrestricted reference or nonzero spin, `loc_orbs` raises no
error, performs no localisation (empty trace) and returns both coefficient
matrices unchanged. -/
theorem c10_unknown_variant_noop (ks : LocKernels) (ext : Externals)
    (mol : Mole) (mo0 mo1 s : Mat2) (ref variant : String)
    (h1 : variant ≠ "fb") (h2 : variant ≠ "pm") (h3 : hasIbo variant = false)
    (h4 : ref ≠ "restricted" ∨ mol.spin ≠ 0) :
    loc_orbs ks ext mol mo0 mo1 s ref variant = .ok ((mo0, mo1), []) := by
  have hv : ∀ m sm, locVariant ks ext mol s variant m sm = .ok (m, false) := by
    intro m sm
    unfold locVariant
    rw [if_neg h1, if_neg h2, if_neg (by simp [h3])]
  unfold loc_orbs
  simp only [hv]
  rw [if_neg (by tauto)]
  simp

/-- C10 witness: a concrete unrecognised variant on an open-shell molecule. -/
theorem c10_unknown_variant_noop_witness :
    ("boys" ≠ "fb" ∧ "boys" ≠ "pm" ∧ hasIbo "boys" = false ∧
      (("unrestricted" : String) ≠ "restricted" ∨ molOpen.spin ≠ 0)) ∧
    loc_orbs (ksConst true) extI molOpen matOne matOne matI "unrestricted"
      "boys" = .ok ((matOne, matOne), []) :=
  ⟨⟨by decide, by decide, by decide, Or.inl (by decide)⟩,
   c10_unknown_variant_noop (ksConst true) extI molOpen matOne matOne matI
     "unrestricted" "boys" (by decide) (by decide) (by decide)
     (Or.inl (by decide))⟩

/-- C9: whenever `loc_orbs` returns, every column of the alpha coefficient
matrix outside `mol.alpha` and every column of the beta coefficient matrix
outside `mol.beta` is unchanged (the decodense closed-shell invariant
`mol.alpha = mol.beta` is assumed for the restricted/singlet copy). -/
theorem c9_occupied_columns_frame (ks : LocKernels) (ext : Externals)
    (mol : Mole) (mo0 mo1 s : Mat2) (ref variant : String)
    (res : (Mat2 × Mat2) × List Nat)
    (hrb : ref = "restricted" → mol.spin = 0 → mol.alpha = mol.beta)
    (h : loc_orbs ks ext mol mo0 mo1 s ref variant = .ok res) :
    (∀ r c, c ∉ mol.alpha → res.1.1 r c = mo0 r c) ∧
    (∀ r c, c ∉ mol.beta → res.1.2 r c = mo1 r c) := by
  unfold loc_orbs at h
  split at h
  · cases h
  · rename_i a ra hva
    split at h
    · rename_i hs
      simp only [Except.ok.injEq] at h
      subst h
      refine ⟨fun r c hc => locVariant_frame hva r c hc, fun r c hc => ?_⟩
      have hab : mol.alpha = mol.beta := hrb hs.1 hs.2
      have hca : c ∉ mol.alpha := by rw [hab]; exact hc
      simp [setCols, hca]
    · split at h
      · cases h
      · rename_i b rb hvb
        simp only [Except.ok.injEq] at h
        subst h
        exact ⟨fun r c hc => locVariant_frame hva r c hc,
               fun r c hc => locVariant_frame hvb r c hc⟩

/-- C9 witness: a concrete open-shell call. -/
theorem c9_occupied_columns_frame_witness :
    (∀ r c, c ∉ molOpen.alpha → matOne r c = matOne r c) ∧
    (∀ r c, c ∉ molOpen.beta → matOne r c = matOne r c) :=
  c9_occupied_columns_frame (ksConst true) extI molOpen matOne matOne matI
    "unrestricted" "xx" ((matOne, matOne), [])
    (fun hr => absurd hr (by decide)) rfl

/-- C8 counterexample: `loc_orbs` with a kernel that reports non-convergence
returns normally (`isOk`), with output identical to the converged case — the
convergence status is never surfaced, so no `LocalizationFailure` (or any
error) is raised on non-convergence. -/
theorem c8_counterexample :
    loc_orbs (ksConst false) extI molOpen matOne matOne matI "unrestricted"
        "fb" =
      loc_orbs (ksConst true) extI molOpen matOne matOne matI "unrestricted"
        "fb" ∧
    (loc_orbs (ksConst false) extI molOpen matOne matOne matI "unrestricted"
        "fb").isOk = true :=
  ⟨rfl, rfl⟩

/-- C8 amended: `loc_orbs` never inspects the optimiser's convergence flag:
two kernel families whose localised orbitals agree produce identical results
whatever their convergence flags, and the result type carries no failure
signal for non-convergence. -/
theorem c8_no_convergence_signal (ks ks' : LocKernels) (ext : Externals)
    (mol : Mole) (mo0 mo1 s : Mat2) (ref variant : String)
    (hfb : ∀ m X, (ks.fb m X).mo = (ks'.fb m X).mo)
    (hpm : ∀ m X, (ks.pm m X).mo = (ks'.pm m X).mo)
    (hibo : ks.ibo = ks'.ibo) :
    loc_orbs ks ext mol mo0 mo1 s ref variant =
      loc_orbs ks' ext mol mo0 mo1 s ref variant := by
  have hv : ∀ m sm, locVariant ks ext mol s variant m sm =
      locVariant ks' ext mol s variant m sm := by
    intro m sm
    unfold locVariant
    split_ifs <;> simp [hfb, hpm, hibo]
  unfold loc_orbs
  rw [hv, hv]

/-- C8 amended witness: concrete kernels differing only in their convergence
flag. -/
theorem c8_no_convergence_signal_witness :
    loc_orbs (ksConst false) extI molSing matOne matOne matI "restricted"
        "pm" =
      loc_orbs (ksConst true) extI molSing matOne matOne matI "restricted"
        "pm" :=
  c8_no_convergence_signal (ksConst false) (ksConst true) extI molSing matOne
    matOne matI "restricted" "pm" (fun _ _ => rfl) (fun _ _ => rfl) rfl

/-! Helper lemmas for `assign_rdm1s`. -/

lemma chunk_flatten (k : Nat) (l : List α) : (chunk k l).flatten = l := by
  induction k, l using chunk.induct with
  | case1 k => simp [chunk]
  | case2 l h => simp [chunk]
  | case3 k x xs ih => simp [chunk, ih]

lemma runPool_mode (nt : Nat) (f : Nat → List ℚ) (domain : List Nat)
    (hne : domain ≠ []) (hnt : 1 ≤ nt) :
    runPool true nt f domain = runPool false nt f domain := by
  have hlen : 0 < domain.length := List.length_pos.mpr hne
  have hmin : min domain.length nt ≠ 0 := by omega
  unfold runPool
  rw [if_pos rfl, if_neg hmin, ← List.map_flatten, chunk_flatten]
  simp

lemma locVariant_ran {ks : LocKernels} {ext : Externals} {mol : Mole}
    {s : Mat2} {variant : String} {m : Mat2} {spin_mo : List Nat}
    {m' : Mat2} {ra : Bool}
    (h : locVariant ks ext mol s variant m spin_mo = .ok (m', ra)) :
    ra = locHit variant := by
  unfold locVariant at h
  split_ifs at h with h1 h2 h3 h4
  all_goals cases h <;> simp_all [locHit]

lemma spinWeights_mode (ext : Externals) (mol : Mole) (s C : Mat2)
    (occ : List ℚ) (spin_mo : List Nat) (pop : String) (natm : Nat)
    (labels : List Nat) (ovlp : Mat2) (nt : Nat)
    (hne : spin_mo ≠ []) (hnt : 1 ≤ nt) :
    spinWeights ext mol s C occ spin_mo pop natm labels ovlp true nt =
      spinWeights ext mol s C occ spin_mo pop natm labels ovlp false nt := by
  have hlen : 0 < spin_mo.length := List.length_pos.mpr hne
  have hdom : List.range spin_mo.length ≠ [] := by
    rw [ne_eq, List.range_eq_nil]
    omega
  by_cases h1 : pop = "mulliken"
  · simp only [spinWeights, if_pos h1]
    exact runPool_mode nt _ _ hdom hnt
  · by_cases h2 : pop = "iao"
    · simp only [spinWeights, if_neg h1, if_pos h2]
      exact runPool_mode nt _ _ hdom hnt
    · have hmin : min (List.range spin_mo.length).length nt ≠ 0 := by
        simp only [List.length_range]
        omega
      have hlen2 : ¬(List.range spin_mo.length).length = 0 := by
        simp only [List.length_range]
        omega
      simp only [spinWeights, if_neg h1, if_neg h2]
      simp [hmin, hlen2, hne, Nat.pos_iff_ne_zero.mp hnt]

lemma spinWeights_seq_ok (ext : Externals) (mol : Mole) (s C : Mat2)
    (occ : List ℚ) (spin_mo : List Nat) (pop : String) (natm : Nat)
    (labels : List Nat) (ovlp : Mat2) (nt : Nat)
    (hp : pop = "mulliken" ∨ pop = "iao") :
    ∃ w, spinWeights ext mol s C occ spin_mo pop natm labels ovlp false nt =
      .ok w := by
  rcases hp with rfl | rfl
  · exact ⟨_, rfl⟩
  · exact ⟨_, rfl⟩

lemma assignTail_none (part : String) (w0 w1 : List (List ℚ))
    (alen blen domLen : Nat) (short : Bool) (trace : List Nat)
    (hb : part = "bonds") :
    assignTail part none w0 w1 alen blen domLen short trace =
      .error (.keyError "thres") := by
  unfold assignTail
  rw [if_pos hb]

lemma spinWeights_ne_invalid (ext : Externals) (mol : Mole) (s C : Mat2)
    (occ : List ℚ) (spin_mo : List Nat) (pop : String) (natm : Nat)
    (labels : List Nat) (ovlp : Mat2) (mp : Bool) (nt : Nat) :
    spinWeights ext mol s C occ spin_mo pop natm labels ovlp mp nt ≠
      .error .invalidOption := by
  have hrp : ∀ (b : Bool) (f : Nat → List ℚ) (dom : List Nat),
      runPool b nt f dom ≠ .error .invalidOption := by
    intro b f dom
    unfold runPool
    split_ifs <;> simp
  simp only [spinWeights]
  split_ifs
  all_goals
    first
    | exact hrp _ _ _
    | (split_ifs <;> simp)
    | simp

lemma assignTail_ne_invalid (part : String) (thOpt : Option ℚ)
    (w0 w1 : List (List ℚ)) (alen blen domLen : Nat) (short : Bool)
    (trace : List Nat) :
    assignTail part thOpt w0 w1 alen blen domLen short trace ≠
      .error .invalidOption := by
  unfold assignTail
  cases thOpt
  all_goals split_ifs <;> simp

lemma assign_ne_invalid (ext : Externals) (mol : Mole) (s : Mat2)
    (mo0 mo1 : Mat2) (occ0 occ1 : List ℚ) (ref pop part : String) (mp : Bool)
    (nt vb : Nat) (thOpt : Option ℚ) :
    assign_rdm1s ext mol s mo0 mo1 occ0 occ1 ref pop part mp nt vb thOpt ≠
      .error .invalidOption := by
  simp only [assign_rdm1s]
  cases hw0 : spinWeights ext mol s mo0 occ0 mol.alpha pop
      (if pop = "iao" then ext.reference_mol mol else mol).natm
      (if pop = "iao" then ext.reference_mol mol else mol).ao_labels
      (if pop = "mulliken" then s
       else fun i j =>
         if i = j ∧ i < (if pop = "iao" then ext.reference_mol mol else mol).nao
         then 1 else 0) mp nt with
  | error e =>
    simp only [hw0]
    intro hcon
    injection hcon with he
    exact spinWeights_ne_invalid _ _ _ _ _ _ _ _ _ _ _ _ (he ▸ hw0)
  | ok w0 =>
    simp only [hw0]
    split
    · exact assignTail_ne_invalid _ _ _ _ _ _ _ _ _
    · cases hw1 : spinWeights ext mol s mo1 occ1 mol.beta pop
          (if pop = "iao" then ext.reference_mol mol else mol).natm
          (if pop = "iao" then ext.reference_mol mol else mol).ao_labels
          (if pop = "mulliken" then s
           else fun i j =>
             if i = j ∧
                 i < (if pop = "iao" then ext.reference_mol mol else mol).nao
             then 1 else 0) mp nt with
      | error e =>
        simp only [hw1]
        intro hcon
        injection hcon with he
        exact spinWeights_ne_invalid _ _ _ _ _ _ _ _ _ _ _ _ (he ▸ hw1)
      | ok w1 =>
        simp only [hw1]
        exact assignTail_ne_invalid _ _ _ _ _ _ _ _ _

/-- C1: for a spin-0 molecule with a restricted reference, `loc_orbs` copies
the alpha localised occupied columns into beta and runs the localisation at
most once (only on channel 0), and `assign_rdm1s` returns beta weights,
orbital groups and unique centre pairs that are the very alpha objects, with
the population computation executed exactly once (trace `[0]`). -/
theorem c1_restricted_singlet_once (ks : LocKernels) (ext : Externals)
    (mol : Mole) (mo0 mo1 s : Mat2) (occ0 occ1 : List ℚ)
    (variant pop part : String) (mp : Bool) (nt vb : Nat) (thOpt : Option ℚ)
    (hspin : mol.spin = 0) :
    (∀ res, loc_orbs ks ext mol mo0 mo1 s "restricted" variant = .ok res →
      (∀ r t, t < mol.alpha.length →
        selCols res.1.2 mol.alpha r t = selCols res.1.1 mol.alpha r t) ∧
      res.2 = (if locHit variant then [0] else [])) ∧
    (∀ res, assign_rdm1s ext mol s mo0 mo1 occ0 occ1 "restricted" pop part mp
        nt vb thOpt = .ok res →
      res.2 = [0] ∧
      (∀ w0 w1, res.1 = .weights w0 w1 → w1 = w0) ∧
      (∀ r0 r1 cu0 cu1, res.1 = .bonds r0 r1 cu0 cu1 →
        r1 = r0 ∧ cu1 = cu0)) := by
  constructor
  · intro res h
    unfold loc_orbs at h
    split at h
    · cases h
    · rename_i a ra hva
      rw [if_pos ⟨rfl, hspin⟩] at h
      simp only [Except.ok.injEq] at h
      subst h
      constructor
      · intro r t ht
        rw [selCols_setCols_getD ht]
        show a r (mol.alpha.getD (mol.alpha.indexOf (mol.alpha.getD t 0)) 0) =
          a r (mol.alpha.getD t 0)
        rw [indexOf_getD_self ht]
      · rw [locVariant_ran hva]
  · intro res h
    simp only [assign_rdm1s] at h
    cases hw0 : spinWeights ext mol s mo0 occ0 mol.alpha pop
        (if pop = "iao" then ext.reference_mol mol else mol).natm
        (if pop = "iao" then ext.reference_mol mol else mol).ao_labels
        (if pop = "mulliken" then s
         else fun i j =>
           if i = j ∧
               i < (if pop = "iao" then ext.reference_mol mol else mol).nao
           then 1 else 0) mp nt with
    | error e =>
      simp only [hw0] at h
      cases h
    | ok w0 =>
      simp only [hw0] at h
      rw [if_pos ⟨by trivial, hspin⟩] at h
      unfold assignTail at h
      by_cases hb : part = "bonds"
      · rw [if_pos hb] at h
        cases thOpt with
        | none => cases h
        | some t =>
          simp only [Except.ok.injEq] at h
          subst h
          refine ⟨by trivial, ?_, ?_⟩
          · intro w0' w1' hw
            cases hw
          · intro r0 r1 cu0 cu1 hbnd
            injection hbnd with h1 h2 h3 h4
            subst h1
            subst h2
            subst h3
            subst h4
            simp
      · rw [if_neg hb] at h
        by_cases ha : part = "atoms" ∨ part = "eda"
        · rw [if_pos ha] at h
          simp only [Except.ok.injEq] at h
          subst h
          refine ⟨by trivial, ?_, ?_⟩
          · intro w0' w1' hw
            injection hw with e1 e2
            rw [← e1, ← e2]
          · intro r0 r1 cu0 cu1 hbnd
            cases hbnd
        · rw [if_neg ha] at h
          cases h

/-- C1 witness: a concrete singlet molecule. -/
theorem c1_restricted_singlet_once_witness :
    molSing.spin = 0 ∧
    ((∀ res, loc_orbs (ksConst true) extI molSing matOne matOne matI
        "restricted" "xx" = .ok res →
      (∀ r t, t < molSing.alpha.length →
        selCols res.1.2 molSing.alpha r t = selCols res.1.1 molSing.alpha r t) ∧
      res.2 = (if locHit "xx" then [0] else [])) ∧
    (∀ res, assign_rdm1s extI molSing matI matOne matOne [2] [2] "restricted"
        "mulliken" "atoms" false 1 0 none = .ok res →
      res.2 = [0] ∧
      (∀ w0 w1, res.1 = .weights w0 w1 → w1 = w0) ∧
      (∀ r0 r1 cu0 cu1, res.1 = .bonds r0 r1 cu0 cu1 →
        r1 = r0 ∧ cu1 = cu0))) :=
  ⟨rfl, c1_restricted_singlet_once (ksConst true) extI molSing matOne matOne
    matI [2] [2] "xx" "mulliken" "atoms" false 1 0 none rfl⟩

/-- C5 counterexample: with an empty beta channel (a one-electron doublet)
the parallel mode creates a zero-process pool and fails with `ValueError`
while the sequential mode succeeds — the two dispatch modes are not equal as
functions of the input. -/
theorem c5_counterexample :
    assign_rdm1s extI molOpen matOne matOne matOne [1] [] "unrestricted"
        "mulliken" "atoms" true 4 0 none = .error .valueError ∧
    (assign_rdm1s extI molOpen matOne matOne matOne [1] [] "unrestricted"
        "mulliken" "atoms" false 4 0 none).isOk = true ∧
    assign_rdm1s extI molOpen matOne matOne matOne [1] [] "unrestricted"
        "mulliken" "atoms" true 4 0 none ≠
      assign_rdm1s extI molOpen matOne matOne matOne [1] [] "unrestricted"
        "mulliken" "atoms" false 4 0 none := by
  refine ⟨by decide, by decide, by decide⟩

/-- C5 amended: when every dispatched spin channel has at least one occupied
orbital and at least one worker thread is available, the parallel (chunked
pool map) and sequential dispatch modes of `assign_rdm1s` are equal as
functions, so the weight vectors are index-aligned with the orbital ordering
in both modes. -/
theorem c5_parallel_sequential_equiv (ext : Externals) (mol : Mole)
    (s mo0 mo1 : Mat2) (occ0 occ1 : List ℚ) (ref pop part : String)
    (nt vb : Nat) (thOpt : Option ℚ)
    (ha : mol.alpha ≠ [])
    (hb : (ref = "restricted" ∧ mol.spin = 0) ∨ mol.beta ≠ [])
    (hnt : 1 ≤ nt) :
    assign_rdm1s ext mol s mo0 mo1 occ0 occ1 ref pop part true nt vb thOpt =
      assign_rdm1s ext mol s mo0 mo1 occ0 occ1 ref pop part false nt vb
        thOpt := by
  simp only [assign_rdm1s]
  rw [spinWeights_mode ext mol s mo0 occ0 mol.alpha pop _ _ _ nt ha hnt]
  cases hw0 : spinWeights ext mol s mo0 occ0 mol.alpha pop
      (if pop = "iao" then ext.reference_mol mol else mol).natm
      (if pop = "iao" then ext.reference_mol mol else mol).ao_labels
      (if pop = "mulliken" then s
       else fun i j =>
         if i = j ∧ i < (if pop = "iao" then ext.reference_mol mol else mol).nao
         then 1 else 0) false nt with
  | error e => simp only [hw0]
  | ok w0 =>
    simp only [hw0]
    by_cases hs : ref = "restricted" ∧ mol.spin = 0
    · rw [if_pos hs, if_pos hs]
    · rw [if_neg hs, if_neg hs,
        spinWeights_mode ext mol s mo1 occ1 mol.beta pop _ _ _ nt
          (hb.resolve_left hs) hnt]

/-- C5 amended witness: both channels non-empty, results equal. -/
theorem c5_parallel_sequential_equiv_witness :
    assign_rdm1s extI molSing matI matOne matOne [2] [2] "unrestricted"
        "mulliken" "atoms" true 2 0 none =
      assign_rdm1s extI molSing matI matOne matOne [2] [2] "unrestricted"
        "mulliken" "atoms" false 2 0 none :=
  c5_parallel_sequential_equiv extI molSing matI matOne matOne [2] [2]
    "unrestricted" "mulliken" "atoms" 2 0 none (by decide)
    (Or.inr (by decide)) (by decide)

/-- C6: calling `assign_rdm1s` with the `bonds` policy and no threshold
parameter fails with the missing-parameter error (`kwargs['thres']` raises
`KeyError('thres')`), detected at the threshold lookup, before any bonds
result is produced. -/
theorem c6_bonds_missing_thres (ext : Externals) (mol : Mole)
    (s mo0 mo1 : Mat2) (occ0 occ1 : List ℚ) (ref pop : String) (nt vb : Nat)
    (hp : pop = "mulliken" ∨ pop = "iao") :
    assign_rdm1s ext mol s mo0 mo1 occ0 occ1 ref pop "bonds" false nt vb
      none = .error (.keyError "thres") := by
  simp only [assign_rdm1s]
  obtain ⟨w0, hw0⟩ := spinWeights_seq_ok ext mol s mo0 occ0 mol.alpha pop
    (if pop = "iao" then ext.reference_mol mol else mol).natm
    (if pop = "iao" then ext.reference_mol mol else mol).ao_labels
    (if pop = "mulliken" then s
     else fun i j =>
       if i = j ∧ i < (if pop = "iao" then ext.reference_mol mol else mol).nao
       then 1 else 0) nt hp
  simp only [hw0]
  by_cases hs : ref = "restricted" ∧ mol.spin = 0
  · rw [if_pos hs]
    exact assignTail_none _ _ _ _ _ _ _ _ rfl
  · rw [if_neg hs]
    obtain ⟨w1, hw1⟩ := spinWeights_seq_ok ext mol s mo1 occ1 mol.beta pop
      (if pop = "iao" then ext.reference_mol mol else mol).natm
      (if pop = "iao" then ext.reference_mol mol else mol).ao_labels
      (if pop = "mulliken" then s
       else fun i j =>
         if i = j ∧ i < (if pop = "iao" then ext.reference_mol mol else mol).nao
         then 1 else 0) nt hp
    simp only [hw1]
    exact assignTail_none _ _ _ _ _ _ _ _ rfl

/-- C6 witness: concrete bonds call without a threshold. -/
theorem c6_bonds_missing_thres_witness :
    (("mulliken" : String) = "mulliken" ∨ ("mulliken" : String) = "iao") ∧
    assign_rdm1s extI molSing matI matOne matOne [2] [2] "restricted"
      "mulliken" "bonds" false 1 0 none = .error (.keyError "thres") :=
  ⟨Or.inl rfl,
   c6_bonds_missing_thres extI molSing matI matOne matOne [2] [2]
     "restricted" "mulliken" 1 0 (Or.inl rfl)⟩

/-- C7 counterexample: an unknown population scheme makes the weight kernel
fail with `NameError` on the unassigned local `mo` (not `InvalidOptionError`);
an unknown partition policy fails with `UnboundLocalError` on `rep_idx`; and
with no occupied orbitals an unknown scheme is silently accepted. -/
theorem c7_counterexample :
    assign_rdm1s extI molOpen matOne matOne matOne [1] [] "unrestricted"
        "xyz" "atoms" false 1 0 none = .error (.nameError "mo") ∧
    assign_rdm1s extI molOpen matOne matOne matOne [1] [] "unrestricted"
        "mulliken" "xyz" false 1 0 none = .error (.unboundLocal "rep_idx") ∧
    assign_rdm1s extI ⟨1, 1, [], [], [0], 1⟩ matOne matOne matOne [] []
        "unrestricted" "xyz" "atoms" false 1 0 none =
      .ok (.weights [] [], [0, 1]) := by
  refine ⟨by decide, by decide, by decide⟩

/-- C7 amended: unknown scheme/policy strings are not validated: an unknown
population scheme raises `NameError` (`mo` referenced before assignment) once
a per-orbital task runs, an unknown partition policy raises
`UnboundLocalError` (`rep_idx`) at the return statement, and no call of
`assign_rdm1s` ever produces the spec's `InvalidOptionError`. -/
theorem c7_no_invalid_option_error :
    (∀ (ext : Externals) (mol : Mole) (s mo0 mo1 : Mat2) (occ0 occ1 : List ℚ)
        (ref pop : String) (nt vb : Nat) (thOpt : Option ℚ),
      pop ≠ "mulliken" → pop ≠ "iao" → mol.alpha ≠ [] →
      assign_rdm1s ext mol s mo0 mo1 occ0 occ1 ref pop "atoms" false nt vb
        thOpt = .error (.nameError "mo")) ∧
    (∀ (ext : Externals) (mol : Mole) (s mo0 mo1 : Mat2) (occ0 occ1 : List ℚ)
        (ref pop part : String) (nt vb : Nat) (thOpt : Option ℚ),
      (pop = "mulliken" ∨ pop = "iao") → part ≠ "atoms" → part ≠ "bonds" →
      part ≠ "eda" →
      assign_rdm1s ext mol s mo0 mo1 occ0 occ1 ref pop part false nt vb
        thOpt = .error (.unboundLocal "rep_idx")) ∧
    (∀ (ext : Externals) (mol : Mole) (s mo0 mo1 : Mat2) (occ0 occ1 : List ℚ)
        (ref pop part : String) (mp : Bool) (nt vb : Nat) (thOpt : Option ℚ),
      assign_rdm1s ext mol s mo0 mo1 occ0 occ1 ref pop part mp nt vb thOpt ≠
        .error .invalidOption) := by
  refine ⟨?_, ?_, ?_⟩
  · intro ext mol s mo0 mo1 occ0 occ1 ref pop nt vb thOpt h1 h2 ha
    have hsw : spinWeights ext mol s mo0 occ0 mol.alpha pop
        (if pop = "iao" then ext.reference_mol mol else mol).natm
        (if pop = "iao" then ext.reference_mol mol else mol).ao_labels
        (if pop = "mulliken" then s
         else fun i j =>
           if i = j ∧
               i < (if pop = "iao" then ext.reference_mol mol else mol).nao
           then 1 else 0) false nt = .error (.nameError "mo") := by
      have hlen : ¬(List.range mol.alpha.length).length = 0 := by
        simp only [List.length_range]
        exact fun hc => ha (List.length_eq_zero.mp hc)
      simp only [spinWeights, if_neg h1, if_neg h2]
      simp [hlen, ha]
    simp only [assign_rdm1s]
    simp only [hsw]
  · intro ext mol s mo0 mo1 occ0 occ1 ref pop part nt vb thOpt hp h1 h2 h3
    have htail : ∀ (thOpt' : Option ℚ) (w0 w1 : List (List ℚ))
        (alen blen domLen : Nat) (short : Bool) (trace : List Nat),
        assignTail part thOpt' w0 w1 alen blen domLen short trace =
          .error (.unboundLocal "rep_idx") := by
      intro thOpt' w0 w1 alen blen domLen short trace
      unfold assignTail
      rw [if_neg h2, if_neg (by simp [h1, h3])]
    simp only [assign_rdm1s]
    obtain ⟨w0, hw0⟩ := spinWeights_seq_ok ext mol s mo0 occ0 mol.alpha pop
      (if pop = "iao" then ext.reference_mol mol else mol).natm
      (if pop = "iao" then ext.reference_mol mol else mol).ao_labels
      (if pop = "mulliken" then s
       else fun i j =>
         if i = j ∧ i < (if pop = "iao" then ext.reference_mol mol else mol).nao
         then 1 else 0) nt hp
    simp only [hw0]
    by_cases hs : ref = "restricted" ∧ mol.spin = 0
    · rw [if_pos hs]
      exact htail _ _ _ _ _ _ _ _
    · rw [if_neg hs]
      obtain ⟨w1, hw1⟩ := spinWeights_seq_ok ext mol s mo1 occ1 mol.beta pop
        (if pop = "iao" then ext.reference_mol mol else mol).natm
        (if pop = "iao" then ext.reference_mol mol else mol).ao_labels
        (if pop = "mulliken" then s
         else fun i j =>
           if i = j ∧
               i < (if pop = "iao" then ext.reference_mol mol else mol).nao
           then 1 else 0) nt hp
      simp only [hw1]
      exact htail _ _ _ _ _ _ _ _
  · intro ext mol s mo0 mo1 occ0 occ1 ref pop part mp nt vb thOpt
    exact assign_ne_invalid ext mol s mo0 mo1 occ0 occ1 ref pop part mp nt vb
      thOpt

/-- C7 amended witness: the three statements at concrete inputs. -/
theorem c7_no_invalid_option_error_witness :
    assign_rdm1s extI molOpen matOne matOne matOne [1] [] "unrestricted"
        "pmx" "atoms" false 1 0 none = .error (.nameError "mo") ∧
    assign_rdm1s extI molOpen matOne matOne matOne [1] [] "unrestricted"
        "iao" "edax" false 1 0 none = .error (.unboundLocal "rep_idx") ∧
    assign_rdm1s extI molOpen matOne matOne matOne [1] [] "unrestricted"
        "mulliken" "atoms" false 1 0 none ≠ .error .invalidOption :=
  ⟨c7_no_invalid_option_error.1 extI molOpen matOne matOne matOne [1] []
     "unrestricted" "pmx" 1 0 none (by decide) (by decide) (by decide),
   c7_no_invalid_option_error.2.1 extI molOpen matOne matOne matOne [1] []
     "unrestricted" "iao" "edax" 1 0 none (Or.inr rfl) (by decide) (by decide)
     (by decide),
   c7_no_invalid_option_error.2.2 extI molOpen matOne matOne matOne [1] []
     "unrestricted" "mulliken" "atoms" false 1 0 none⟩

/-! Helper lemmas for the population-conservation claim. -/

lemma sum_set_rat (l : List ℚ) (k : Nat) (x : ℚ) (hk : k < l.length) :
    (l.set k x).sum = l.sum - l.getD k 0 + x := by
  induction l generalizing k with
  | nil => simp at hk
  | cons a l ih =>
    cases k with
    | zero =>
      simp only [List.set, List.sum_cons, List.getD_cons_zero]
      ring
    | succ k =>
      simp only [List.set, List.sum_cons, List.getD_cons_succ]
      rw [ih k (by simpa using hk)]
      ring

lemma scatter_sum (ps : List (Nat × ℚ)) (acc : List ℚ)
    (hk : ∀ q ∈ ps, q.1 < acc.length) :
    (ps.foldl (fun a p => a.set p.1 (a.getD p.1 0 + p.2)) acc).sum =
      acc.sum + (ps.map Prod.snd).sum := by
  induction ps generalizing acc with
  | nil => simp
  | cons p ps ih =>
    simp only [List.foldl_cons, List.map_cons, List.sum_cons]
    rw [ih _ (fun q hq => by
      simpa [List.length_set] using hk q (List.mem_cons_of_mem _ hq))]
    rw [sum_set_rat _ _ _ (hk p (List.mem_cons_self _ _))]
    ring

lemma sum_map_range (f : Nat → ℚ) (n : Nat) :
    ((List.range n).map f).sum = ∑ i ∈ Finset.range n, f i := by
  induction n with
  | zero => simp
  | succ n ih =>
    rw [List.range_succ, Finset.sum_range_succ]
    simp [ih]

/-- C2: under the mulliken scheme, for an orbital column normalised against
the overlap matrix (`c^T S c = 1`), the atomic population weights returned by
`get_weights`/`_population` sum to the orbital's occupation number. -/
theorem c2_population_sum (natm : Nat) (ao_labels : List Nat) (ovlp mo : Mat2)
    (mocc : List ℚ) (j : Nat)
    (hatm : ∀ k ∈ ao_labels, k < natm)
    (hnorm : quadForm (fun r => mo r j) ovlp ao_labels.length = 1) :
    (get_weights natm ao_labels ovlp mo mocc j).sum = mocc.getD j 0 := by
  unfold get_weights _population make_rdm1
  rw [scatter_sum _ _ (fun q hq => by
    have hmem := List.mem_zip hq
    simpa using hatm q.1 hmem.1)]
  rw [List.map_snd_zip _ _ (by simp), sum_map_range]
  have key : (∑ i ∈ Finset.range ao_labels.length,
        ∑ l ∈ Finset.range ao_labels.length,
          mocc.getD j 0 * mo i j * mo l j * ovlp l i) =
      mocc.getD j 0 * quadForm (fun r => mo r j) ovlp ao_labels.length := by
    rw [quadForm, Finset.mul_sum, Finset.sum_comm]
    refine Finset.sum_congr rfl fun l _ => ?_
    rw [Finset.mul_sum, Finset.mul_sum]
    refine Finset.sum_congr rfl fun i _ => ?_
    ring
  calc (List.replicate natm (0:ℚ)).sum +
        ∑ i ∈ Finset.range ao_labels.length,
          ∑ l ∈ Finset.range ao_labels.length,
            mocc.getD j 0 * mo i j * mo l j * ovlp l i
      = mocc.getD j 0 * quadForm (fun r => mo r j) ovlp ao_labels.length := by
        rw [key]
        simp
    _ = mocc.getD j 0 := by rw [hnorm, mul_one]

/-- C2 witness: one atom, one AO, identity overlap, occupation 2. -/
theorem c2_population_sum_witness :
    (∀ k ∈ [0], k < 1) ∧
    quadForm (fun r => matOne r 0) matI ([0] : List Nat).length = 1 ∧
    (get_weights 1 [0] matI matOne [2] 0).sum = ([2] : List ℚ).getD 0 0 := by
  have hq : quadForm (fun r => matOne r 0) matI ([0] : List Nat).length = 1 := by
    norm_num [quadForm, matI, matOne, Finset.sum_range_succ]
  exact ⟨by decide, hq, c2_population_sum 1 [0] matI matOne [2] 0
    (by decide) hq⟩

/-! Helper lemmas for the bonds-partition claim. -/

lemma centresFor_length (d : Nat) (t : ℚ) (w : List (List ℚ)) (size : Nat) :
    (centresFor d t w size).length = size := by
  unfold centresFor
  have hfold : ∀ (l : List Nat) (acc : List (Nat × Nat)),
      (l.foldl (fun a j => a.set j (centre_of t (w.getD j []))) acc).length =
        acc.length := by
    intro l
    induction l with
    | nil => intro acc; rfl
    | cons x xs ih =>
      intro acc
      rw [List.foldl_cons, ih, List.length_set]
  rw [hfold, List.length_replicate]

lemma uniqueCentres_nodup (cs : List (Nat × Nat)) : (uniqueCentres cs).Nodup := by
  unfold uniqueCentres
  exact (List.perm_insertionSort pairLe cs.dedup).nodup_iff.mpr cs.nodup_dedup

lemma mem_uniqueCentres {cs : List (Nat × Nat)} {u : Nat × Nat} :
    u ∈ uniqueCentres cs ↔ u ∈ cs := by
  unfold uniqueCentres
  rw [(List.perm_insertionSort pairLe cs.dedup).mem_iff, List.mem_dedup]

lemma sum_map_ind_one (U : List (Nat × Nat)) (x : Nat × Nat) (hU : U.Nodup)
    (hx : x ∈ U) :
    (U.map (fun u => if x = u then (1 : Nat) else 0)).sum = 1 := by
  induction U with
  | nil => cases hx
  | cons u us ih =>
    simp only [List.map_cons, List.sum_cons]
    rcases List.mem_cons.mp hx with rfl | hxs
    · rw [if_pos rfl]
      have hz : ∀ v ∈ us, (if x = v then (1 : Nat) else 0) = 0 := by
        intro v hv
        rw [if_neg]
        intro hc
        subst hc
        exact (List.nodup_cons.mp hU).1 hv
      simp [List.map_congr_left hz]
    · rw [if_neg (fun hc => by subst hc; exact (List.nodup_cons.mp hU).1 hxs),
        ih (List.nodup_cons.mp hU).2 hxs]

lemma count_filter_range (n a : Nat) (p : Nat → Bool) :
    ((List.range n).filter p).count a = if p a = true ∧ a < n then 1 else 0 := by
  by_cases hmem : a ∈ (List.range n).filter p
  · rw [List.count_eq_one_of_mem ((List.nodup_range n).filter p) hmem]
    have hf := List.mem_filter.mp hmem
    rw [if_pos ⟨hf.2, List.mem_range.mp hf.1⟩]
  · rw [List.count_eq_zero.mpr hmem]
    have hcond : ¬(p a = true ∧ a < n) := by
      rintro ⟨hp, hlt⟩
      exact hmem (List.mem_filter.mpr ⟨List.mem_range.mpr hlt, hp⟩)
    rw [if_neg hcond]

lemma count_range_ite (n a : Nat) :
    (List.range n).count a = if a < n then 1 else 0 := by
  by_cases h : a < n
  · rw [List.count_eq_one_of_mem (List.nodup_range n)
      (List.mem_range.mpr h), if_pos h]
  · rw [List.count_eq_zero.mpr (fun hc => h (List.mem_range.mp hc)), if_neg h]

lemma rep_idx_join_perm (cs : List (Nat × Nat)) :
    (rep_idx_of cs).flatten.Perm (List.range cs.length) := by
  rw [List.perm_iff_count]
  intro a
  rw [List.count_flatten, rep_idx_of, List.map_map, count_range_ite]
  have hcong : ∀ u ∈ uniqueCentres cs,
      (List.count a ∘ fun u =>
        (List.range cs.length).filter (fun j => decide (cs.getD j (0, 0) = u)))
          u =
      if cs.getD a (0, 0) = u ∧ a < cs.length then 1 else 0 := by
    intro u _
    simp only [Function.comp_apply]
    rw [count_filter_range]
    simp
  rw [List.map_congr_left hcong]
  by_cases ha : a < cs.length
  · rw [if_pos ha]
    have hcong2 : (fun u => if cs.getD a (0, 0) = u ∧ a < cs.length
          then (1 : Nat) else 0) =
        (fun u => if cs.getD a (0, 0) = u then 1 else 0) := by
      funext u
      by_cases hx : cs.getD a (0, 0) = u
      · rw [if_pos ⟨hx, ha⟩, if_pos hx]
      · rw [if_neg (fun hc => hx hc.1), if_neg hx]
    have hmem : cs.getD a (0, 0) ∈ cs := by
      rw [List.getD_eq_getElem _ _ ha]
      exact List.getElem_mem ha
    rw [hcong2, sum_map_ind_one _ _ (uniqueCentres_nodup cs)
      (mem_uniqueCentres.mpr hmem)]
  · simp [ha]

lemma rep_idx_groups_ne_nil (cs : List (Nat × Nat)) :
    ∀ g ∈ rep_idx_of cs, g ≠ [] := by
  intro g hg
  rw [rep_idx_of, List.mem_map] at hg
  obtain ⟨u, hu, rfl⟩ := hg
  obtain ⟨i, hi, hie⟩ := List.mem_iff_getElem.mp (mem_uniqueCentres.mp hu)
  intro hnil
  have hmem : i ∈ (List.range cs.length).filter
      (fun j => decide (cs.getD j (0, 0) = u)) := by
    refine List.mem_filter.mpr ⟨List.mem_range.mpr hi, ?_⟩
    simp [List.getElem?_eq_getElem hi, hie]
  rw [hnil] at hmem
  cases hmem

lemma rep_idx_length (cs : List (Nat × Nat)) :
    (rep_idx_of cs).length = (uniqueCentres cs).length := by
  simp [rep_idx_of]

/-- C4: under the `bonds` policy, for each spin channel the returned
orbital-index groups partition that channel's full occupied index set (their
concatenation is a permutation of `range n`, so the union is everything and
no index repeats), the unique centre-pair list is duplicate-free and
index-aligned with the groups, and every listed pair is realised by at least
one orbital.  (The decodense closed-shell invariant
`alpha.length = beta.length` is assumed for the restricted/singlet copy.) -/
theorem c4_bonds_partition (ext : Externals) (mol : Mole) (s mo0 mo1 : Mat2)
    (occ0 occ1 : List ℚ) (ref pop : String) (mp : Bool) (nt vb : Nat)
    (thOpt : Option ℚ) (r0 r1 : List (List Nat)) (cu0 cu1 : List (Nat × Nat))
    (tr : List Nat)
    (hab : ref = "restricted" → mol.spin = 0 →
      mol.alpha.length = mol.beta.length)
    (h : assign_rdm1s ext mol s mo0 mo1 occ0 occ1 ref pop "bonds" mp nt vb
      thOpt = .ok (.bonds r0 r1 cu0 cu1, tr)) :
    r0.flatten.Perm (List.range mol.alpha.length) ∧
    r1.flatten.Perm (List.range mol.beta.length) ∧
    cu0.Nodup ∧ cu1.Nodup ∧
    r0.length = cu0.length ∧ r1.length = cu1.length ∧
    (∀ g ∈ r0, g ≠ []) ∧ (∀ g ∈ r1, g ≠ []) := by
  simp only [assign_rdm1s] at h
  cases hw0 : spinWeights ext mol s mo0 occ0 mol.alpha pop
      (if pop = "iao" then ext.reference_mol mol else mol).natm
      (if pop = "iao" then ext.reference_mol mol else mol).ao_labels
      (if pop = "mulliken" then s
       else fun i j =>
         if i = j ∧ i < (if pop = "iao" then ext.reference_mol mol else mol).nao
         then 1 else 0) mp nt with
  | error e =>
    simp only [hw0] at h
    cases h
  | ok w0 =>
    simp only [hw0] at h
    by_cases hs : ref = "restricted" ∧ mol.spin = 0
    · rw [if_pos hs] at h
      unfold assignTail at h
      rw [if_pos rfl] at h
      cases thOpt with
      | none => cases h
      | some t =>
        simp only [Except.ok.injEq, Prod.mk.injEq, AssignRes.bonds.injEq,
          if_pos] at h
        obtain ⟨⟨h1, h2, h3, h4⟩, h5⟩ := h
        subst h1
        subst h2
        subst h3
        subst h4
        have hlab : mol.alpha.length = mol.beta.length := hab hs.1 hs.2
        have hlen := centresFor_length mol.alpha.length t w0 mol.alpha.length
        refine ⟨?_, ?_, uniqueCentres_nodup _, uniqueCentres_nodup _,
          rep_idx_length _, rep_idx_length _,
          rep_idx_groups_ne_nil _, rep_idx_groups_ne_nil _⟩
        · have hp := rep_idx_join_perm
            (centresFor mol.alpha.length t w0 mol.alpha.length)
          rw [hlen] at hp
          exact hp
        · rw [← hlab]
          have hp := rep_idx_join_perm
            (centresFor mol.alpha.length t w0 mol.alpha.length)
          rw [hlen] at hp
          exact hp
    · rw [if_neg hs] at h
      cases hw1 : spinWeights ext mol s mo1 occ1 mol.beta pop
          (if pop = "iao" then ext.reference_mol mol else mol).natm
          (if pop = "iao" then ext.reference_mol mol else mol).ao_labels
          (if pop = "mulliken" then s
           else fun i j =>
             if i = j ∧
                 i < (if pop = "iao" then ext.reference_mol mol else mol).nao
             then 1 else 0) mp nt with
      | error e =>
        simp only [hw1] at h
        cases h
      | ok w1 =>
        simp only [hw1] at h
        unfold assignTail at h
        rw [if_pos rfl] at h
        cases thOpt with
        | none => cases h
        | some t =>
          simp only [Except.ok.injEq, Prod.mk.injEq, AssignRes.bonds.injEq,
            if_neg (show ¬(false = true) by simp)] at h
          obtain ⟨⟨h1, h2, h3, h4⟩, h5⟩ := h
          subst h1
          subst h2
          subst h3
          subst h4
          have hlen0 := centresFor_length mol.beta.length t w0 mol.alpha.length
          have hlen1 := centresFor_length mol.beta.length t w1 mol.beta.length
          refine ⟨?_, ?_, uniqueCentres_nodup _, uniqueCentres_nodup _,
            rep_idx_length _, rep_idx_length _,
            rep_idx_groups_ne_nil _, rep_idx_groups_ne_nil _⟩
          · have hp := rep_idx_join_perm
              (centresFor mol.beta.length t w0 mol.alpha.length)
            rw [hlen0] at hp
            exact hp
          · have hp := rep_idx_join_perm
              (centresFor mol.beta.length t w1 mol.beta.length)
            rw [hlen1] at hp
            exact hp

/-- C4 witness: a concrete restricted-singlet bonds call. -/
theorem c4_bonds_partition_witness :
    ([[0]] : List (List Nat)).flatten.Perm (List.range molSing.alpha.length) ∧
    ([[0]] : List (List Nat)).flatten.Perm (List.range molSing.beta.length) ∧
    ([(0, 0)] : List (Nat × Nat)).Nodup ∧
    ([(0, 0)] : List (Nat × Nat)).Nodup ∧
    ([[0]] : List (List Nat)).length = ([(0, 0)] : List (Nat × Nat)).length ∧
    ([[0]] : List (List Nat)).length = ([(0, 0)] : List (Nat × Nat)).length ∧
    (∀ g ∈ ([[0]] : List (List Nat)), g ≠ []) ∧
    (∀ g ∈ ([[0]] : List (List Nat)), g ≠ []) := by
  have hw : spinWeights extI molSing matI matOne [2] [0] "mulliken" 1 [0]
      matI false 1 = .ok [[2]] := by
    norm_num [spinWeights, runPool, get_weights, _population, make_rdm1,
      selCols, matI, matOne, Finset.sum_range_succ, List.range_succ]
  have heval : assign_rdm1s extI molSing matI matOne matOne [2] [2]
      "restricted" "mulliken" "bonds" false 1 0 (some 0) =
      .ok (.bonds [[0]] [[0]] [(0, 0)] [(0, 0)], [0]) := by
    simp only [assign_rdm1s]
    simp only [show molSing.alpha = [0] from rfl,
      show molSing.natm = 1 from rfl, show molSing.ao_labels = [0] from rfl,
      show ("mulliken" : String) ≠ "iao" from by decide, if_true, if_false,
      if_neg (show ¬False from not_false), if_pos trivial]
    rw [hw]
    decide
  exact c4_bonds_partition extI molSing matI matOne matOne [2] [2]
    "restricted" "mulliken" false 1 0 (some 0) [[0]] [[0]] [(0, 0)] [(0, 0)]
    [0] (fun _ _ => rfl) heval

/-- C3: the bonds centre rule is NOT applied to every orbital: for the
open-shell `molUneven` (two alpha, one beta occupied orbitals) the bonds loop
iterates over the stale `domain` left over from the weights loop (the beta
range `{0}`), so alpha orbital 1 — whose weight vector is `[1, 1]` with
maximal magnitude `1 ≤ thres = 2`, which the rule (line 151-156) would assign
to the sorted two-centre pair `(0, 1)` — keeps its zero-initialised centre
pair `(0, 0)`: the returned groups pair orbital `1` with the unique centre
`(0, 0)` (first group) instead of `(0, 1)`. -/
theorem c3_bonds_stale_domain_bug :
    assign_rdm1s extI molUneven matI moUneven moUneven [1, 1] [1]
        "unrestricted" "mulliken" "bonds" false 1 0 (some 2) =
      .ok (.bonds [[1], [0]] [[0]] [(0, 0), (0, 1)] [(0, 1)], [0, 1]) ∧
    centre_of 2 [1, 1] = (0, 1) ∧
    get_weights 2 [0, 1] matI (selCols moUneven [0, 1]) [1, 1] 1 = [1, 1] := by
  refine ⟨?_, by decide, ?_⟩
  · have hw : spinWeights extI molUneven matI moUneven [1, 1] [0, 1]
        "mulliken" 2 [0, 1] matI false 1 = .ok [[1, 0], [1, 1]] := by
      norm_num [spinWeights, runPool, get_weights, _population, make_rdm1,
        selCols, matI, moUneven, Finset.sum_range_succ, List.range_succ]
      decide
    have hw1 : spinWeights extI molUneven matI moUneven [1] [0] "mulliken" 2
        [0, 1] matI false 1 = .ok [[1, 0]] := by
      norm_num [spinWeights, runPool, get_weights, _population, make_rdm1,
        selCols, matI, moUneven, Finset.sum_range_succ, List.range_succ]
      decide
    have hne : ("mulliken" : String) ≠ "iao" := by decide
    have hsh : ¬(("unrestricted" : String) = "restricted" ∧
        molUneven.spin = 0) := by decide
    simp only [assign_rdm1s]
    simp only [hne, if_false, if_neg, if_true, if_pos rfl, hsh,
      show molUneven.alpha = [0, 1] from rfl,
      show molUneven.beta = [0] from rfl,
      show molUneven.natm = 2 from rfl,
      show molUneven.ao_labels = [0, 1] from rfl]
    rw [hw, hw1]
    decide
  · norm_num [get_weights, _population, make_rdm1, selCols, matI, moUneven,
      Finset.sum_range_succ, List.range_succ]
    decide

end Decodense
